import Mathlib

/-!
Shallow embedding of the lido bounded resource pool (src/lido.go).

The Go code is a pool of lazily constructed values with capacity `maxSize`,
an idle buffered channel `items`, a live counter `curSize` guarded by a
mutex, and single-use `Item` handles with a `closed` flag.

The embedding models a linearized execution: every Go critical section
(the body of `addNew`, the `select` receive, an `Item.Restore`/`Item.Remove`
body, the `remove`/`restore` callbacks) is one atomic step of a transition
system over `PoolState`.  The channel is a FIFO list; a channel send inside
a critical section never blocks on reachable states because the buffer
capacity equals `maxSize` and the proved invariant keeps the buffer length
strictly below `maxSize` at every send, so modelling sends as list append
is faithful.  `Pool.Close` is modelled as a terminal operation, matching
the documented precondition that no `Next`/`Restore`/`Remove` call is
issued once shutdown begins.
-/

set_option linter.unusedVariables false

namespace Lido

/-- Go `error` values by identity.  `errTimeout` is the package-level
sentinel created by its own `errors.New` call (src/lido.go line 42);
`errored msg` is an error value created by any other `errors.New` /
`fmt.Errorf` allocation (e.g. a factory's own error), which in Go is never
identical to the sentinel. -/
inductive GoError where
  | errTimeout
  | errored (msg : String)
  deriving DecidableEq, Repr

/-- A pooled value.  `hasCloser` says whether the dynamic type implements
the `closer` interface (`Close() error`); `closeErr` is what its `Close`
method would return; `closed` records that `Close` has been invoked
(mirroring the test double `value` in src/lido_test.go). -/
structure Val where
  id : Nat
  hasCloser : Bool
  closeErr : Option GoError
  closed : Bool
  deriving DecidableEq, Repr

/-- The observable part of a Go `Item`: the held value and the `closed`
disposition flag guarded by the item's mutex. -/
structure ItemSt where
  value : Val
  closed : Bool
  deriving DecidableEq, Repr

/-- Pool state.  `items` is the contents of the buffered channel (FIFO,
head = next value received); `curSize`/`maxSize`/`timeout` are the Go
fields (Go `int` / `time.Duration` modelled as `Int`, nanoseconds for the
duration); `out` is the list of all `Item` handles ever returned by `Next`,
in creation order, each with its current `closed` flag. -/
structure PoolState where
  items : List Val
  curSize : Int
  maxSize : Int
  timeout : Int
  out : List ItemSt
  deriving DecidableEq, Repr

/-- Go `Options` (src/lido.go lines 11-15): `hasNew` is whether the `New`
field is non-nil; `size` and `timeout` are the `Size` and `Timeout`
fields (zero values when not supplied). -/
structure Options where
  hasNew : Bool
  size : Int
  timeout : Int
  deriving DecidableEq, Repr

/-- The value of `time.Second` in nanoseconds. -/
def second : Int := 1000000000

/-- Model of `New` (src/lido.go lines 45-65).  Returns `none` on the
`panic("pool: new func must not be nil")` path, otherwise the freshly
constructed pool with the defaulted size and timeout. -/
def New (o : Options) : Option PoolState :=
  if o.hasNew = false then
    none
  else
    let size := if o.size ≤ 0 then 1 else o.size
    let timeout := if o.timeout ≤ 0 then 30 * second else o.timeout
    some { items := [], curSize := 0, maxSize := size, timeout := timeout, out := [] }

/-- Model of `Pool.Size` (src/lido.go lines 95-97). -/
def PoolState.Size (p : PoolState) : Int := p.maxSize

/-- Model of `Pool.Timeout` (src/lido.go lines 100-102). -/
def PoolState.Timeout (p : PoolState) : Int := p.timeout

/-- Result of `addNew` (src/lido.go lines 121-138): the updated pool, the
returned error, and whether `p.newFn` was invoked.  `fr` is the result the
factory would produce if called on this occasion. -/
def addNew (s : PoolState) (fr : Except GoError Val) :
    PoolState × Option GoError × Bool :=
  if s.curSize ≥ s.maxSize then
    (s, none, false)
  else
    match fr with
    | .error e => (s, some e, true)
    | .ok v =>
        ({ s with items := s.items ++ [v], curSize := s.curSize + 1 }, none, true)

/-- What one step of the transition system reports to the caller. -/
inductive Outcome where
  | gotItem (idx : Nat)
  | gotErr (e : GoError)
  | done
  | panicked (msg : String)
  | invalid
  deriving DecidableEq, Repr

/-- One atomic step: resulting pool state, caller-visible outcome, and
whether the factory was invoked during the step. -/
structure StepRes where
  state : PoolState
  outcome : Outcome
  factoryCalled : Bool
  deriving DecidableEq, Repr

/-- The `select` in `Next` (src/lido.go lines 75-91): receive the next
idle value if one is buffered, wrapping it in a fresh `Item` (appended to
`out`), otherwise take the `time.After` branch and return `ErrTimeout`. -/
def selectRecv (s : PoolState) (called : Bool) : StepRes :=
  match s.items with
  | v :: rest =>
      ⟨{ s with items := rest, out := s.out ++ [⟨v, false⟩] },
        .gotItem s.out.length, called⟩
  | [] => ⟨s, .gotErr .errTimeout, called⟩

/-- The tail of `Next` after the growth attempt: return a factory error
to the caller, otherwise fall through to the `select`. -/
def afterGrow (r : PoolState × Option GoError × Bool) : StepRes :=
  match r with
  | (s1, some e, called) => ⟨s1, .gotErr e, called⟩
  | (s1, none, called) => selectRecv s1 called

/-- Model of `Pool.Next` (src/lido.go lines 68-92): attempt growth when the buffer
looks empty, propagate a factory error, else receive with timeout. -/
def Next (s : PoolState) (fr : Except GoError Val) : StepRes :=
  if s.items.length < 1 then
    afterGrow (addNew s fr)
  else
    selectRecv s false

/-- Model of `Item.Restore` (src/lido.go lines 146-156) on the `i`-th item ever
handed out: panic if already disposed, otherwise run the restore callback
(push the value back onto the channel, src/lido.go lines 79-81) and set
the `closed` flag. -/
def Restore (s : PoolState) (i : Nat) : StepRes :=
  match s.out[i]? with
  | none => ⟨s, .invalid, false⟩
  | some it =>
      if it.closed then
        ⟨s, .panicked "result: already closed", false⟩
      else
        let it1 : ItemSt := { it with closed := true }
        ⟨{ s with items := s.items ++ [it.value], out := s.out.set i it1 },
          .done, false⟩

/-- Model of `Item.Remove` (src/lido.go lines 159-169) on the `i`-th item: panic if
already disposed, otherwise run the remove callback (decrement `curSize`
under the pool mutex, src/lido.go lines 82-86) and set the flag. -/
def Remove (s : PoolState) (i : Nat) : StepRes :=
  match s.out[i]? with
  | none => ⟨s, .invalid, false⟩
  | some it =>
      if it.closed then
        ⟨s, .panicked "result: already closed", false⟩
      else
        let it1 : ItemSt := { it with closed := true }
        ⟨{ s with curSize := s.curSize - 1, out := s.out.set i it1 },
          .done, false⟩

/-- An operation a caller can perform on a live pool. -/
inductive Op where
  | next (fr : Except GoError Val)
  | restore (i : Nat)
  | remove (i : Nat)
  deriving Repr

/-- Dispatch one operation. -/
def step (s : PoolState) (op : Op) : StepRes :=
  match op with
  | .next fr => Next s fr
  | .restore i => Restore s i
  | .remove i => Remove s i

/-- Run a sequence of operations, returning the final state and the total
number of factory invocations. -/
def run : PoolState → List Op → PoolState × Nat
  | s, [] => (s, 0)
  | s, op :: ops =>
      let r := step s op
      let rest := run r.state ops
      (rest.1, (if r.factoryCalled then 1 else 0) + rest.2)

/-- Invoking `Close` on one value during the drain loop of `Pool.Close`: the
method marks the value closed and yields its error. -/
def closeVal (v : Val) : Val × Option GoError :=
  ({ v with closed := true }, v.closeErr)

/-- The drain loop of `Pool.Close` (src/lido.go lines 110-116): walk the
buffered values in FIFO order; a value implementing `closer` has `Close`
invoked and the loop returns its error if non-nil; other values are
skipped.  Returns the processed values (with `Close` applied where
invoked), the returned error, and the values left unread in the channel. -/
def drainClose : List Val → List Val × Option GoError × List Val
  | [] => ([], none, [])
  | v :: rest =>
      if v.hasCloser then
        match closeVal v with
        | (v1, some e) => ([v1], some e, rest)
        | (v1, none) =>
            let r := drainClose rest
            (v1 :: r.1, r.2.1, r.2.2)
      else
        let r := drainClose rest
        (v :: r.1, r.2.1, r.2.2)

/-- Model of `Pool.Close` (src/lido.go lines 105-119): close the channel and drain
it, stopping at the first `Close` error.  Returns the updated pool (the
unread values stay buffered), the processed values, and the error. -/
def poolClose (s : PoolState) : PoolState × List Val × Option GoError :=
  let r := drainClose s.items
  ({ s with items := r.2.2 }, r.1, r.2.1)

/-- What the drain loop does to a value it reads: values implementing
`closer` have `Close` invoked, others are untouched. -/
def applyClose (v : Val) : Val :=
  if v.hasCloser then { v with closed := true } else v

/-- A disposition method of `Item`. -/
inductive Disp where
  | restore
  | remove
  deriving DecidableEq, Repr

/-- The operation performed by calling disposition `d` on the `i`-th item. -/
def Disp.toOp : Disp → Nat → Op
  | .restore, i => .restore i
  | .remove, i => .remove i

/-- Number of handed-out items not yet disposed. -/
def countOpen (out : List ItemSt) : Nat :=
  (out.filter fun it => !it.closed).length

/-- The accounting invariant of the pool: the live counter equals the
buffered values plus the undisposed handles, and never exceeds capacity. -/
def Inv (s : PoolState) : Prop :=
  s.curSize = (s.items.length : Int) + (countOpen s.out : Int) ∧
    s.curSize ≤ s.maxSize

/-- All values currently known to the pool: buffered ones plus those held
by any handle ever returned. -/
def values (s : PoolState) : List Val :=
  s.items ++ s.out.map ItemSt.value

/-- Whether an operation occurs in an acquire/restore cycle (no
`Remove`). -/
def isNR : Op → Bool
  | .next _ => true
  | .restore _ => true
  | .remove _ => false

/-- A concrete value exposing `Close` that succeeds. -/
def cvOk : Val := ⟨10, true, none, false⟩

/-- A concrete value exposing `Close` that fails. -/
def cvErr : Val := ⟨11, true, some (.errored "close"), false⟩

/-- A full size-1 pool with its value idle and one disposed handle. -/
def poolFull : PoolState := ⟨[⟨0, false, none, false⟩], 1, 1, 100, [⟨⟨0, false, none, false⟩, true⟩]⟩

/-- A pool whose idle values all close without error. -/
def poolIdle : PoolState := ⟨[cvOk, ⟨0, false, none, false⟩], 2, 2, 100, []⟩

/-- A pool whose idle buffer holds a value that fails to close. -/
def poolIdleErr : PoolState := ⟨[⟨0, false, none, false⟩, cvErr, cvOk], 3, 3, 100, []⟩

/-- A concrete plain value for witnesses. -/
def val0 : Val := ⟨0, false, none, false⟩

/-- A second concrete plain value for witnesses. -/
def val1 : Val := ⟨1, false, none, false⟩

/-- A freshly constructed pool with size 1 and timeout 100ns. -/
def pool1 : PoolState := ⟨[], 0, 1, 100, []⟩

/-- A size-1 pool whose single value is checked out and undisposed. -/
def pool1out : PoolState := ⟨[], 1, 1, 100, [⟨val0, false⟩]⟩

/-- C9: constructing with a nil factory panics; an unsupplied (zero) size
defaults to 1 and an unsupplied (zero) timeout defaults to 30 seconds;
the `Size` and `Timeout` accessors return exactly the configured values. -/
theorem new_nil_panics_and_defaults :
    (∀ sz t : Int, New ⟨false, sz, t⟩ = none) ∧
    (∀ t : Int, 0 < t →
      (New ⟨true, 0, t⟩).map PoolState.Size = some 1 ∧
      (New ⟨true, 0, t⟩).map PoolState.Timeout = some t) ∧
    (∀ sz : Int, 0 < sz →
      (New ⟨true, sz, 0⟩).map PoolState.Size = some sz ∧
      (New ⟨true, sz, 0⟩).map PoolState.Timeout = some (30 * second)) ∧
    (∀ sz t : Int, 0 < sz → 0 < t →
      (New ⟨true, sz, t⟩).map PoolState.Size = some sz ∧
      (New ⟨true, sz, t⟩).map PoolState.Timeout = some t) := by
  refine ⟨fun sz t => rfl, fun t ht => ?_, fun sz hsz => ?_, fun sz t hsz ht => ?_⟩
  · constructor <;> simp [New, PoolState.Size, PoolState.Timeout, not_le.mpr ht]
  · constructor <;> simp [New, PoolState.Size, PoolState.Timeout, not_le.mpr hsz]
  · constructor <;>
      simp [New, PoolState.Size, PoolState.Timeout, not_le.mpr hsz, not_le.mpr ht]

/-- Witness for C9 at concrete options. -/
theorem new_nil_panics_and_defaults_witness :
    New ⟨false, 3, 5⟩ = none ∧
    (New ⟨true, 0, 100⟩).map PoolState.Size = some 1 ∧
    (New ⟨true, 7, 0⟩).map PoolState.Timeout = some (30 * second) ∧
    (New ⟨true, 7, 100⟩).map PoolState.Size = some 7 ∧
    (New ⟨true, 7, 100⟩).map PoolState.Timeout = some 100 :=
  ⟨new_nil_panics_and_defaults.1 3 5,
    (new_nil_panics_and_defaults.2.1 100 (by decide)).1,
    (new_nil_panics_and_defaults.2.2.1 7 (by decide)).2,
    (new_nil_panics_and_defaults.2.2.2 7 100 (by decide) (by decide)).1,
    (new_nil_panics_and_defaults.2.2.2 7 100 (by decide) (by decide)).2⟩

/-- C10: `New` coerces every non-positive size to 1 and every non-positive
timeout to 30 seconds, so a constructed pool always has strictly positive
capacity and timeout. -/
theorem new_coerces_nonpositive :
    (∀ sz t : Int, sz ≤ 0 →
      (New ⟨true, sz, t⟩).map PoolState.Size = some 1) ∧
    (∀ sz t : Int, t ≤ 0 →
      (New ⟨true, sz, t⟩).map PoolState.Timeout = some (30 * second)) ∧
    (∀ o : Options, ∀ p : PoolState, New o = some p →
      0 < p.Size ∧ 0 < p.Timeout) := by
  refine ⟨fun sz t hsz => by simp [New, hsz, PoolState.Size],
    fun sz t ht => by simp [New, ht, PoolState.Timeout], fun o p hp => ?_⟩
  obtain ⟨hn, sz, t⟩ := o
  cases hn with
  | false => simp [New] at hp
  | true =>
    simp only [New, Bool.true_eq_false, if_false, Option.some.injEq] at hp
    subst hp
    refine ⟨?_, ?_⟩ <;> simp only [PoolState.Size, PoolState.Timeout, second] <;>
      split <;> omega

/-- Witness for C10 at concrete negative options. -/
theorem new_coerces_nonpositive_witness :
    (New ⟨true, -5, 42⟩).map PoolState.Size = some 1 ∧
    (New ⟨true, 4, -7⟩).map PoolState.Timeout = some (30 * second) ∧
    (0 : Int) < PoolState.Size ⟨[], 0, 1, 30 * second, []⟩ ∧
    (0 : Int) < PoolState.Timeout ⟨[], 0, 1, 30 * second, []⟩ :=
  ⟨new_coerces_nonpositive.1 (-5) 42 (by decide),
    new_coerces_nonpositive.2.1 4 (-7) (by decide),
    (new_coerces_nonpositive.2.2 ⟨true, 0, 0⟩ ⟨[], 0, 1, 30 * second, []⟩
      (by simp [New, second])).1,
    (new_coerces_nonpositive.2.2 ⟨true, 0, 0⟩ ⟨[], 0, 1, 30 * second, []⟩
      (by simp [New, second])).2⟩

/-- C3: when the idle buffer is empty and there is room to grow, a `Next`
call whose factory fails with `e` invokes the factory and returns exactly
`e`, leaving the pool state (in particular `curSize` and the idle buffer)
unchanged. -/
theorem next_factory_error_unchanged (s : PoolState) (e : GoError)
    (hempty : s.items = []) (hroom : s.curSize < s.maxSize) :
    Next s (.error e) = ⟨s, .gotErr e, true⟩ := by
  simp [Next, addNew, afterGrow, hempty, not_le.mpr hroom]

/-- Witness for C3 on a fresh size-1 pool. -/
theorem next_factory_error_unchanged_witness :
    Next pool1 (.error (.errored "error")) =
      ⟨pool1, .gotErr (.errored "error"), true⟩ :=
  next_factory_error_unchanged pool1 (.errored "error") rfl (by decide)

/-- C6: on a pool with room to grow and an empty idle buffer, `Next` with
a succeeding factory invokes the factory (exactly once within the call),
increments `curSize`, and returns the newly constructed value wrapped in a
fresh `Item`, not the timeout branch. -/
theorem next_grows_when_room (s : PoolState) (v : Val)
    (hempty : s.items = []) (hroom : s.curSize < s.maxSize) :
    Next s (.ok v) =
      ⟨{ s with
          items := [], curSize := s.curSize + 1,
          out := s.out ++ [⟨v, false⟩] }, .gotItem s.out.length, true⟩ ∧
    (Next s (.ok v)).outcome ≠ .gotErr .errTimeout := by
  have h : Next s (.ok v) =
      ⟨{ s with
          items := [], curSize := s.curSize + 1,
          out := s.out ++ [⟨v, false⟩] }, .gotItem s.out.length, true⟩ := by
    simp [Next, addNew, afterGrow, selectRecv, hempty, not_le.mpr hroom]
  exact ⟨h, by rw [h]; simp⟩

/-- Witness for C6 on a fresh size-1 pool. -/
theorem next_grows_when_room_witness :
    Next pool1 (.ok val0) =
      ⟨{ pool1 with
          items := [], curSize := pool1.curSize + 1,
          out := pool1.out ++ [⟨val0, false⟩] },
        .gotItem pool1.out.length, true⟩ ∧
    (Next pool1 (.ok val0)).outcome ≠ .gotErr .errTimeout :=
  next_grows_when_room pool1 val0 rfl (by decide)

/-- C5: `ErrTimeout` is a dedicated sentinel distinguishable by identity
from every error produced elsewhere (a factory error being any such
`errored` value): a propagated factory error is returned verbatim and is
never the timeout sentinel, and the timeout failure returned when no value
is available is the sentinel itself. -/
theorem timeout_error_distinct (s : PoolState) (m : String)
    (hempty : s.items = []) :
    (s.curSize < s.maxSize →
      (Next s (.error (.errored m))).outcome = .gotErr (.errored m)) ∧
    (s.maxSize ≤ s.curSize →
      (Next s (.error (.errored m))).outcome = .gotErr .errTimeout) ∧
    (∀ m' : String, GoError.errored m' ≠ GoError.errTimeout) := by
  refine ⟨fun hroom => ?_, fun hfull => ?_, fun m' => by simp⟩
  · simp [Next, addNew, afterGrow, hempty, not_le.mpr hroom]
  · simp [Next, addNew, afterGrow, selectRecv, hempty, hfull]

/-- Witness for C5 on concrete size-1 pools. -/
theorem timeout_error_distinct_witness :
    (Next pool1 (.error (.errored "error"))).outcome =
      .gotErr (.errored "error") ∧
    (Next pool1out (.error (.errored "error"))).outcome =
      .gotErr .errTimeout ∧
    GoError.errored "error" ≠ GoError.errTimeout :=
  ⟨(timeout_error_distinct pool1 "error" rfl).1 (by decide),
    (timeout_error_distinct pool1out "error" rfl).2.1 (by decide),
    (timeout_error_distinct pool1 "error" rfl).2.2 "error"⟩

/-- Helper: a successful receive returns a handle whose `closed` flag
starts `false`. -/
theorem selectRecv_fresh (t : PoolState) (c : Bool) (j : Nat)
    (hj : (selectRecv t c).outcome = .gotItem j) :
    ((selectRecv t c).state.out[j]?).map ItemSt.closed = some false := by
  cases hs : t.items with
  | nil => rw [selectRecv, hs] at hj; exact absurd hj (by simp)
  | cons v rest =>
    rw [selectRecv, hs] at hj ⊢
    simp only [Outcome.gotItem.injEq] at hj
    subst hj
    simp [List.getElem?_concat_length]

/-- Helper: every `Item` returned by a successful `Next` is undisposed. -/
theorem next_fresh (s : PoolState) (fr : Except GoError Val) (j : Nat)
    (hj : (Next s fr).outcome = .gotItem j) :
    ((Next s fr).state.out[j]?).map ItemSt.closed = some false := by
  by_cases hlen : s.items.length < 1
  · rw [Next, if_pos hlen] at hj ⊢
    rcases ha : addNew s fr with ⟨s1, eo, c⟩
    rw [ha] at hj
    cases eo with
    | some e => simp [afterGrow] at hj
    | none =>
        simp only [afterGrow] at hj ⊢
        exact selectRecv_fresh s1 c j hj
  · rw [Next, if_neg hlen] at hj ⊢
    exact selectRecv_fresh s false j hj

/-- Helper: disposing an undisposed item succeeds and marks it closed. -/
theorem dispose_open (s : PoolState) (i : Nat) (it : ItemSt) (d : Disp)
    (hit : s.out[i]? = some it) (hopen : it.closed = false) :
    (step s (Disp.toOp d i)).outcome = .done ∧
    ((step s (Disp.toOp d i)).state.out[i]?).map ItemSt.closed = some true := by
  have hlt : i < s.out.length := (List.getElem?_eq_some.1 hit).1
  cases d <;>
    simp [step, Disp.toOp, Restore, Remove, hit, hopen, List.getElem?_set, hlt]

/-- Helper: disposing an already-disposed item panics and changes
nothing. -/
theorem dispose_closed (s : PoolState) (i : Nat) (it : ItemSt) (d : Disp)
    (hit : s.out[i]? = some it) (hclosed : it.closed = true) :
    step s (Disp.toOp d i) = ⟨s, .panicked "result: already closed", false⟩ := by
  cases d <;> simp [step, Disp.toOp, Restore, Remove, hit, hclosed]

/-- C2: a handle returned by a successful acquire starts undisposed; the
first `Restore` or `Remove` on an undisposed handle succeeds and marks it
disposed, and a second disposition — in any of the four combinations —
panics with the misuse message while leaving the pool state untouched
(never a silent no-op). -/
theorem item_disposed_exactly_once (s : PoolState) (i : Nat) (it : ItemSt)
    (d1 d2 : Disp) (hit : s.out[i]? = some it) (hopen : it.closed = false) :
    (∀ fr : Except GoError Val, ∀ j : Nat, (Next s fr).outcome = .gotItem j →
      ((Next s fr).state.out[j]?).map ItemSt.closed = some false) ∧
    (step s (Disp.toOp d1 i)).outcome = .done ∧
    ((step s (Disp.toOp d1 i)).state.out[i]?).map ItemSt.closed = some true ∧
    (step (step s (Disp.toOp d1 i)).state (Disp.toOp d2 i)).outcome =
      .panicked "result: already closed" ∧
    (step (step s (Disp.toOp d1 i)).state (Disp.toOp d2 i)).state =
      (step s (Disp.toOp d1 i)).state := by
  obtain ⟨h1, h2⟩ := dispose_open s i it d1 hit hopen
  obtain ⟨it1, hit1, hc1⟩ := Option.map_eq_some'.1 h2
  have h3 := dispose_closed (step s (Disp.toOp d1 i)).state i it1 d2 hit1 hc1
  exact ⟨fun fr j hj => next_fresh s fr j hj, h1, h2, by rw [h3], by rw [h3]⟩

/-- Witness for C2: restore-then-remove on the single checked-out item of
a size-1 pool. -/
theorem item_disposed_exactly_once_witness :
    (step pool1out (Disp.toOp .restore 0)).outcome = .done ∧
    ((step pool1out (Disp.toOp .restore 0)).state.out[0]?).map
      ItemSt.closed = some true ∧
    (step (step pool1out (Disp.toOp .restore 0)).state
      (Disp.toOp .remove 0)).outcome = .panicked "result: already closed" ∧
    (step (step pool1out (Disp.toOp .restore 0)).state
        (Disp.toOp .remove 0)).state =
      (step pool1out (Disp.toOp .restore 0)).state :=
  (item_disposed_exactly_once pool1out 0 ⟨val0, false⟩ .restore .remove
    rfl rfl).2

/-- C8: on a pool at full capacity with an empty idle buffer, removing a
checked-out item succeeds and decrements `curSize` below capacity, so the
following `Next` invokes the factory (exactly once within the call) and,
on success, returns the replacement value. -/
theorem remove_frees_capacity (s : PoolState) (i : Nat) (it : ItemSt)
    (v : Val) (hfull : s.curSize = s.maxSize) (hempty : s.items = [])
    (hit : s.out[i]? = some it) (hopen : it.closed = false) :
    (step s (.remove i)).outcome = .done ∧
    (step s (.remove i)).state.curSize = s.maxSize - 1 ∧
    (Next (step s (.remove i)).state (.ok v)).factoryCalled = true ∧
    (Next (step s (.remove i)).state (.ok v)).outcome =
      .gotItem (step s (.remove i)).state.out.length ∧
    ((Next (step s (.remove i)).state (.ok v)).state.out[
        (step s (.remove i)).state.out.length]?).map ItemSt.value =
      some v := by
  have hlt : ¬s.curSize - 1 ≥ s.maxSize := by omega
  refine ⟨?_, ?_, ?_, ?_, ?_⟩ <;>
    simp [step, Remove, Next, addNew, afterGrow, selectRecv, hit, hopen,
      hempty, hlt, List.getElem?_concat_length] <;> omega

/-- Witness for C8: removing the checked-out value of a full size-1 pool
and acquiring a replacement. -/
theorem remove_frees_capacity_witness :
    (step pool1out (.remove 0)).outcome = .done ∧
    (step pool1out (.remove 0)).state.curSize = pool1out.maxSize - 1 ∧
    (Next (step pool1out (.remove 0)).state (.ok val1)).factoryCalled =
      true ∧
    (Next (step pool1out (.remove 0)).state (.ok val1)).outcome =
      .gotItem (step pool1out (.remove 0)).state.out.length ∧
    ((Next (step pool1out (.remove 0)).state (.ok val1)).state.out[
        (step pool1out (.remove 0)).state.out.length]?).map ItemSt.value =
      some val1 :=
  remove_frees_capacity pool1out 0 ⟨val0, false⟩ val1 rfl rfl rfl rfl

/-- Helper: `countOpen` over a cons. -/
theorem countOpen_cons (a : ItemSt) (l : List ItemSt) :
    countOpen (a :: l) = (if a.closed then 0 else 1) + countOpen l := by
  cases h : a.closed <;> simp [countOpen, List.filter_cons, h] <;> omega

/-- Helper: appending a fresh handle adds one open handle. -/
theorem countOpen_append_fresh (l : List ItemSt) (it : ItemSt)
    (h : it.closed = false) : countOpen (l ++ [it]) = countOpen l + 1 := by
  simp [countOpen, List.filter_append, h]

/-- Helper: closing an open handle removes one open handle. -/
theorem countOpen_set_closed (l : List ItemSt) (i : Nat) (it it1 : ItemSt)
    (hit : l[i]? = some it) (hopen : it.closed = false)
    (hc : it1.closed = true) :
    countOpen (l.set i it1) + 1 = countOpen l := by
  induction l generalizing i with
  | nil => simp at hit
  | cons a l ih =>
    cases i with
    | zero =>
      simp only [List.getElem?_cons_zero, Option.some.injEq] at hit
      subst hit
      simp [List.set, countOpen_cons, hopen, hc]
      omega
    | succ n =>
      simp only [List.getElem?_cons_succ] at hit
      simp only [List.set, countOpen_cons]
      have := ih n hit
      omega

/-- Helper: `addNew` preserves the accounting invariant. -/
theorem inv_addNew (s : PoolState) (fr : Except GoError Val) (h : Inv s) :
    Inv (addNew s fr).1 := by
  by_cases hcap : s.curSize ≥ s.maxSize
  · rw [addNew.eq_def, if_pos hcap]; exact h
  · rw [addNew.eq_def, if_neg hcap]
    cases fr with
    | error e => exact h
    | ok v =>
      obtain ⟨h1, h2⟩ := h
      refine ⟨?_, ?_⟩
      · show s.curSize + 1 =
          ((s.items ++ [v]).length : Int) + (countOpen s.out : Int)
        simp only [List.length_append, List.length_cons, List.length_nil]
        omega
      · show s.curSize + 1 ≤ s.maxSize
        omega

/-- Helper: the `select` receive preserves the accounting invariant. -/
theorem inv_selectRecv (s : PoolState) (c : Bool) (h : Inv s) :
    Inv (selectRecv s c).state := by
  cases hs : s.items with
  | nil => rw [selectRecv, hs]; exact h
  | cons v rest =>
    rw [selectRecv, hs]
    obtain ⟨h1, h2⟩ := h
    rw [hs] at h1
    refine ⟨?_, h2⟩
    show s.curSize =
      (rest.length : Int) + (countOpen (s.out ++ [⟨v, false⟩]) : Int)
    rw [countOpen_append_fresh s.out ⟨v, false⟩ rfl]
    simp only [List.length_cons] at h1
    omega

/-- Helper: one step preserves the accounting invariant. -/
theorem inv_step (s : PoolState) (op : Op) (h : Inv s) :
    Inv (step s op).state := by
  cases op with
  | next fr =>
    show Inv (Next s fr).state
    by_cases hlen : s.items.length < 1
    · rw [Next, if_pos hlen]
      rcases ha : addNew s fr with ⟨s1, eo, c⟩
      have hinv1 : Inv s1 := by
        have := inv_addNew s fr h
        rw [ha] at this
        exact this
      cases eo with
      | some e => simpa only [afterGrow] using hinv1
      | none =>
          simp only [afterGrow]
          exact inv_selectRecv s1 c hinv1
    · rw [Next, if_neg hlen]
      exact inv_selectRecv s false h
  | restore i =>
    show Inv (Restore s i).state
    cases hit : s.out[i]? with
    | none => rw [Restore, hit]; exact h
    | some it =>
      by_cases hcl : it.closed = true
      · simp only [Restore, hit, if_pos hcl]; exact h
      · simp only [Restore, hit, if_neg hcl]
        have hopen : it.closed = false := by
          cases hc2 : it.closed
          · rfl
          · exact absurd hc2 hcl
        obtain ⟨h1, h2⟩ := h
        have hset :=
          countOpen_set_closed s.out i it ⟨it.value, true⟩ hit hopen rfl
        refine ⟨?_, h2⟩
        show s.curSize = ((s.items ++ [it.value]).length : Int) +
          (countOpen (s.out.set i ⟨it.value, true⟩) : Int)
        simp only [List.length_append, List.length_cons, List.length_nil]
        omega
  | remove i =>
    show Inv (Remove s i).state
    cases hit : s.out[i]? with
    | none => rw [Remove, hit]; exact h
    | some it =>
      by_cases hcl : it.closed = true
      · simp only [Remove, hit, if_pos hcl]; exact h
      · simp only [Remove, hit, if_neg hcl]
        have hopen : it.closed = false := by
          cases hc2 : it.closed
          · rfl
          · exact absurd hc2 hcl
        obtain ⟨h1, h2⟩ := h
        have hset :=
          countOpen_set_closed s.out i it ⟨it.value, true⟩ hit hopen rfl
        refine ⟨?_, ?_⟩
        · show s.curSize - 1 = (s.items.length : Int) +
            (countOpen (s.out.set i ⟨it.value, true⟩) : Int)
          omega
        · show s.curSize - 1 ≤ s.maxSize
          omega

/-- Helper: a run of operations preserves the accounting invariant. -/
theorem inv_run (s : PoolState) (ops : List Op) (h : Inv s) :
    Inv (run s ops).1 := by
  induction ops generalizing s with
  | nil => exact h
  | cons op ops ih => exact ih (step s op).state (inv_step s op h)

/-- Helper: a freshly constructed pool satisfies the invariant. -/
theorem inv_new (o : Options) (p : PoolState) (hp : New o = some p) :
    Inv p := by
  rcases o with ⟨hn, sz, t⟩
  cases hn with
  | false => simp [New] at hp
  | true =>
    simp only [New, Bool.true_eq_false, if_false, Option.some.injEq] at hp
    subst hp
    refine ⟨by simp [Inv, countOpen], ?_⟩
    simp only [Inv]
    split <;> omega

/-- Helper: the factory is only invoked by `addNew` under the capacity
check. -/
theorem addNew_called_lt (s : PoolState) (fr : Except GoError Val)
    (h : (addNew s fr).2.2 = true) : s.curSize < s.maxSize := by
  by_cases hcap : s.curSize ≥ s.maxSize
  · rw [addNew.eq_def, if_pos hcap] at h
    simp at h
  · omega

/-- Helper: `selectRecv` passes through the factory-invocation flag. -/
theorem selectRecv_called (s : PoolState) (c : Bool) :
    (selectRecv s c).factoryCalled = c := by
  cases hs : s.items <;> rw [selectRecv, hs]

/-- Helper: any step that invokes the factory starts from a state with
room to grow. -/
theorem factory_called_lt (s : PoolState) (op : Op)
    (h : (step s op).factoryCalled = true) : s.curSize < s.maxSize := by
  cases op with
  | next fr =>
    simp only [step, Next] at h
    by_cases hlen : s.items.length < 1
    · rw [if_pos hlen] at h
      rcases ha : addNew s fr with ⟨s1, eo, c⟩
      have hc : c = true := by
        rw [ha] at h
        cases eo with
        | some e => simpa [afterGrow] using h
        | none => simpa [afterGrow, selectRecv_called] using h
      apply addNew_called_lt s fr
      rw [ha, hc]
    · rw [if_neg hlen, selectRecv_called] at h
      simp at h
  | restore i =>
    simp only [step] at h
    cases hit : s.out[i]? with
    | none => rw [Restore, hit] at h; simp at h
    | some it =>
      rw [Restore, hit] at h
      cases hcl : it.closed <;> simp [hcl] at h
  | remove i =>
    simp only [step] at h
    cases hit : s.out[i]? with
    | none => rw [Remove, hit] at h; simp at h
    | some it =>
      rw [Remove, hit] at h
      cases hcl : it.closed <;> simp [hcl] at h

/-- C1: over every operation sequence from a freshly constructed pool,
`0 ≤ curSize ≤ maxSize` holds, the idle buffer never holds more than
`curSize` values, and any step that would invoke the factory starts from
a state with `curSize < maxSize`. -/
theorem live_count_bounded (o : Options) (p : PoolState)
    (hp : New o = some p) (ops : List Op) :
    (0 ≤ (run p ops).1.curSize ∧
      (run p ops).1.curSize ≤ (run p ops).1.maxSize ∧
      ((run p ops).1.items.length : Int) ≤ (run p ops).1.curSize) ∧
    (∀ op : Op, (step (run p ops).1 op).factoryCalled = true →
      (run p ops).1.curSize < (run p ops).1.maxSize) := by
  obtain ⟨h1, h2⟩ := inv_run p ops (inv_new o p hp)
  exact ⟨⟨by omega, h2, by omega⟩, fun op hop => factory_called_lt _ op hop⟩

/-- Witness for C1 on a concrete acquire/restore trace of a size-1
pool. -/
theorem live_count_bounded_witness :
    (0 ≤ (run pool1 [Op.next (.ok val0), .restore 0]).1.curSize ∧
      (run pool1 [Op.next (.ok val0), .restore 0]).1.curSize ≤
        (run pool1 [Op.next (.ok val0), .restore 0]).1.maxSize ∧
      ((run pool1 [Op.next (.ok val0), .restore 0]).1.items.length : Int) ≤
        (run pool1 [Op.next (.ok val0), .restore 0]).1.curSize) ∧
    (run pool1 []).1.curSize < (run pool1 []).1.maxSize :=
  ⟨(live_count_bounded ⟨true, 1, 100⟩ pool1 (by decide)
      [Op.next (.ok val0), .restore 0]).1,
    (live_count_bounded ⟨true, 1, 100⟩ pool1 (by decide) []).2
      (.next (.ok val0)) (by decide)⟩

/-- Helper: overwriting a handle with one holding the same value leaves
the value list unchanged. -/
theorem map_value_set (l : List ItemSt) (i : Nat) (it : ItemSt) (b : Bool)
    (hit : l[i]? = some it) :
    (l.set i ⟨it.value, b⟩).map ItemSt.value = l.map ItemSt.value := by
  induction l generalizing i with
  | nil => simp at hit
  | cons a l ih =>
    cases i with
    | zero =>
      simp only [List.getElem?_cons_zero, Option.some.injEq] at hit
      subst hit
      simp [List.set]
    | succ n =>
      simp only [List.getElem?_cons_succ] at hit
      simp [List.set, ih n hit]

/-- Helper: a receive neither changes the counters nor introduces values
from outside the pool. -/
theorem selectRecv_values (s : PoolState) (c : Bool) :
    (selectRecv s c).state.curSize = s.curSize ∧
    (selectRecv s c).state.maxSize = s.maxSize ∧
    ∀ v, v ∈ values (selectRecv s c).state → v ∈ values s := by
  cases hs : s.items with
  | nil => rw [selectRecv, hs]; exact ⟨rfl, rfl, fun v hv => hv⟩
  | cons w rest =>
    rw [selectRecv, hs]
    refine ⟨rfl, rfl, fun v hv => ?_⟩
    simp only [values, List.map_append, List.mem_append, List.map_cons,
      List.map_nil, List.mem_cons, List.not_mem_nil, or_false, hs] at hv ⊢
    tauto

/-- Helper: on a pool at (or beyond) capacity, an acquire or restore step
never invokes the factory, never changes the counters, and only hands out
values the pool already knew. -/
theorem step_nr_facts (s : PoolState) (op : Op) (hop : isNR op = true)
    (hfull : s.maxSize ≤ s.curSize) :
    (step s op).factoryCalled = false ∧
    (step s op).state.curSize = s.curSize ∧
    (step s op).state.maxSize = s.maxSize ∧
    ∀ v, v ∈ values (step s op).state → v ∈ values s := by
  cases op with
  | next fr =>
    simp only [step]
    rw [Next]
    by_cases hlen : s.items.length < 1
    · rw [if_pos hlen, addNew.eq_def, if_pos hfull]
      simp only [afterGrow]
      obtain ⟨hc, hm, hv⟩ := selectRecv_values s false
      exact ⟨selectRecv_called s false, hc, hm, hv⟩
    · rw [if_neg hlen]
      obtain ⟨hc, hm, hv⟩ := selectRecv_values s false
      exact ⟨selectRecv_called s false, hc, hm, hv⟩
  | restore i =>
    simp only [step]
    cases hit : s.out[i]? with
    | none => simp [Restore, hit]
    | some it =>
      by_cases hcl : it.closed = true
      · simp [Restore, hit, if_pos hcl]
      · simp only [Restore, hit, if_neg hcl]
        refine ⟨by simp, by simp, by simp, fun v hv => ?_⟩
        have hlt : i < s.out.length := (List.getElem?_eq_some.1 hit).1
        have hvm : it.value ∈ s.out.map ItemSt.value := by
          refine List.mem_map_of_mem ItemSt.value ?_
          have := List.getElem_mem (l := s.out) (n := i) hlt
          rwa [(List.getElem?_eq_some.1 hit).2] at this
        simp only [values, List.mem_append, map_value_set s.out i it true hit,
          List.mem_append, List.mem_singleton] at hv ⊢
        rcases hv with (hv | rfl) | hv
        · exact Or.inl hv
        · exact Or.inr hvm
        · exact Or.inr hv
  | remove i => simp [isNR] at hop

/-- C7: once the live count has reached capacity, any sequence of acquire
and restore operations makes zero factory calls and only circulates values
the pool had already constructed. -/
theorem reuse_without_factory (s : PoolState) (ops : List Op)
    (hfull : s.maxSize ≤ s.curSize) (hops : ops.all isNR = true) :
    (run s ops).2 = 0 ∧
    ∀ v, v ∈ values (run s ops).1 → v ∈ values s := by
  induction ops generalizing s with
  | nil => exact ⟨rfl, fun v hv => hv⟩
  | cons op ops ih =>
    rw [List.all_cons, Bool.and_eq_true] at hops
    obtain ⟨hc, hcur, hmax, hvals⟩ := step_nr_facts s op hops.1 hfull
    have hfull2 : (step s op).state.maxSize ≤ (step s op).state.curSize := by
      rw [hcur, hmax]; exact hfull
    obtain ⟨ih1, ih2⟩ := ih (step s op).state hfull2 hops.2
    refine ⟨?_, fun v hv => hvals v (ih2 v hv)⟩
    show (if (step s op).factoryCalled then 1 else 0) +
      (run (step s op).state ops).2 = 0
    rw [hc, ih1]
    simp

/-- Witness for C7: an acquire/restore cycle on a full size-1 pool makes
no factory call and returns the already-constructed value. -/
theorem reuse_without_factory_witness :
    (run poolFull [Op.next (.ok val1), .restore 1]).2 = 0 ∧
    val0 ∈ values poolFull :=
  ⟨(reuse_without_factory poolFull [Op.next (.ok val1), .restore 1]
      (by decide) rfl).1,
    (reuse_without_factory poolFull [Op.next (.ok val1), .restore 1]
      (by decide) rfl).2 val0 (by decide)⟩

/-- Helper: the drain loop on a buffer of cleanly closing values closes
every `closer` and reads everything. -/
theorem drainClose_all_ok (l : List Val)
    (h : ∀ v ∈ l, v.hasCloser = true → v.closeErr = none) :
    drainClose l = (l.map applyClose, none, []) := by
  induction l with
  | nil => rfl
  | cons v rest ih =>
    have hrest := fun w hw => h w (List.mem_cons_of_mem _ hw)
    by_cases hc : v.hasCloser = true
    · have hne := h v (List.mem_cons_self _ _) hc
      simp [drainClose, hc, closeVal, hne, ih hrest, applyClose]
    · simp [drainClose, hc, ih hrest, applyClose]

/-- Helper: the drain loop stops at the first value whose `Close` fails,
leaving the rest unread. -/
theorem drainClose_first_err (l1 : List Val) (v : Val) (l2 : List Val)
    (e : GoError) (h1 : ∀ w ∈ l1, w.hasCloser = true → w.closeErr = none)
    (hv : v.hasCloser = true) (he : v.closeErr = some e) :
    drainClose (l1 ++ v :: l2) =
      (l1.map applyClose ++ [applyClose v], some e, l2) := by
  induction l1 with
  | nil => simp [drainClose, hv, closeVal, he, applyClose]
  | cons w l1 ih =>
    have hrest := fun u hu => h1 u (List.mem_cons_of_mem _ hu)
    by_cases hc : w.hasCloser = true
    · have hne := h1 w (List.mem_cons_self _ _) hc
      simp [drainClose, hc, closeVal, hne, ih hrest, applyClose]
    · simp [drainClose, hc, ih hrest, applyClose]

/-- C4: `Close` drains the idle buffer in FIFO order, invoking `Close` on
exactly the values exposing it (others pass through untouched); if every
exposed `Close` succeeds it drains everything and returns nil, and
otherwise it stops at the first failing value, returns that error, and
leaves the following values buffered and undisposed. -/
theorem close_drains_and_stops (s : PoolState) :
    ((∀ v ∈ s.items, v.hasCloser = true → v.closeErr = none) →
      poolClose s = ({ s with items := [] }, s.items.map applyClose, none)) ∧
    (∀ l1 : List Val, ∀ v : Val, ∀ l2 : List Val, ∀ e : GoError,
      s.items = l1 ++ v :: l2 →
      (∀ w ∈ l1, w.hasCloser = true → w.closeErr = none) →
      v.hasCloser = true → v.closeErr = some e →
      poolClose s =
        ({ s with items := l2 }, l1.map applyClose ++ [applyClose v],
          some e)) := by
  constructor
  · intro h
    simp [poolClose, drainClose_all_ok s.items h]
  · intro l1 v l2 e hsplit h1 hv he
    simp [poolClose, hsplit, drainClose_first_err l1 v l2 e h1 hv he]

/-- Witness for C4: a clean drain and a drain stopped by a failing
`Close`. -/
theorem close_drains_and_stops_witness :
    poolClose poolIdle =
      ({ poolIdle with items := [] }, poolIdle.items.map applyClose,
        none) ∧
    poolClose poolIdleErr =
      ({ poolIdleErr with items := [cvOk] },
        [val0].map applyClose ++ [applyClose cvErr],
        some (.errored "close")) :=
  ⟨(close_drains_and_stops poolIdle).1 (by decide),
    (close_drains_and_stops poolIdleErr).2 [val0] cvErr [cvOk]
      (.errored "close") rfl (by decide) rfl rfl⟩

end Lido
